import Mathlib

/-!
Verification of the selection-state controller in
`src/scripts/services/selection-model-options.js` (angular-selection-model).

The embedding models the directive's link-scope helpers:
`indexOfTrackBy`, `isSelected`, `selectItem`, `deselectAllItemsExcept`,
`selectItemsBetween` and the click handler `handleClick`, together with the
`selectionStack` collaborator (whose source is not part of the repository
snapshot; it is modelled from the specification of its contract).

JavaScript items are modelled as records carrying a track-by value plus an
opaque payload distinguishing instances that agree on the track-by value.
A JS value that may be `undefined` (an entry of the `except` array) is an
`Option Item`; dereferencing `undefined` (`undefined[trackBy]`) is a
`TypeError`, modelled with `Except String`.
-/

namespace SelectionModel

/-- An item of the host collection.  `trackBy` is the value of the configured
track-by field (the identity used by every membership test); `payload`
stands for the rest of the record and distinguishes instances. -/
structure Item where
  trackBy : Nat
  payload : Nat := 0
deriving DecidableEq, Repr

/-- `indexOfTrackBy(array, trackByAttr, item)`: first index whose entry has
the same track-by value, JS `-1` becomes `none`. -/
def indexOfTrackBy : List Item → Item → Option Nat
  | [], _ => none
  | x :: rest, item =>
    if x.trackBy == item.trackBy then some 0
    else (indexOfTrackBy rest item).map (· + 1)

/-- `isSelected(item)`: true iff `indexOfTrackBy` finds the item
(`index > -1`). -/
def isSelected (sel : List Item) (item : Item) : Bool :=
  (indexOfTrackBy sel item).isSome

/-- `selectItem(item)`: push onto `selectedItemsList` iff not present. -/
def selectItem (sel : List Item) (item : Item) : List Item :=
  match indexOfTrackBy sel item with
  | some _ => sel
  | none => sel ++ [item]

/-- The `splice(index, 1)` removal pattern used by the source to deselect:
remove the first entry with the item's track-by value, no-op if absent. -/
def spliceOut (sel : List Item) (item : Item) : List Item :=
  match indexOfTrackBy sel item with
  | some ix => sel.eraseIdx ix
  | none => sel

/-- Does some element of `l` share `x`'s track-by value? -/
def occursTrackBy (x : Item) (l : List Item) : Bool :=
  l.any (fun i => i.trackBy == x.trackBy)

/-- `indexOfTrackBy` run over the `except` array, whose entries may be
`undefined` (`none`).  Evaluating `array[i][trackByAttr]` on an `undefined`
entry throws a `TypeError`; entries are scanned left to right, so a match
before the first `undefined` entry still succeeds. -/
def indexOfTrackByErr : List (Option Item) → Item → Except String (Option Nat)
  | [], _ => .ok none
  | none :: _, _ => .error "TypeError: cannot read property of undefined"
  | some x :: rest, item =>
    if x.trackBy == item.trackBy then .ok (some 0)
    else (indexOfTrackByErr rest item).map (·.map (· + 1))

/-- The `except` argument of `deselectAllItemsExcept`: JS `undefined`, a
single item, or an array (whose entries may themselves be `undefined`). -/
inductive ExceptArg where
  | undef
  | item (it : Item)
  | arr (xs : List (Option Item))
deriving DecidableEq, Repr

/-- The range branch of the `deselectAllItemsExcept` loop.  State carried
across iterations: the (spliced, hence shrinking) `except` array, the
`numItemsFound` counter and the selection being rebuilt.  Per item:
a match in `except` splices that entry out, bumps the counter and selects;
otherwise `doSelect = (1 === numItemsFound)` decides between `selectItem`
and the splice-removal from the selection. -/
def deselectRangeLoop :
    List Item → List (Option Item) → Nat → List Item →
      Except String (List Item × List (Option Item))
  | [], exc, _, sel => .ok (sel, exc)
  | item :: rest, exc, numFound, sel =>
    match indexOfTrackByErr exc item with
    | .error e => .error e
    | .ok (some ix) =>
      deselectRangeLoop rest (exc.eraseIdx ix) (numFound + 1) (selectItem sel item)
    | .ok none =>
      if numFound == 1 then
        deselectRangeLoop rest exc numFound (selectItem sel item)
      else
        deselectRangeLoop rest exc numFound (spliceOut sel item)

/-- The non-range branch of the `deselectAllItemsExcept` loop:
`doSelect = item[trackBy] === except[trackBy]` for a per-item predicate. -/
def deselectPlainLoop (doSel : Item → Bool) : List Item → List Item → List Item
  | [], sel => sel
  | item :: rest, sel =>
    deselectPlainLoop doSel rest
      (if doSel item then selectItem sel item else spliceOut sel item)

/-- `deselectAllItemsExcept(except)`, returning the rebuilt selection
together with the final value of the caller's `except` argument (the range
branch splices the caller's array in place).

`selectedItemsList` is a JS array in every configuration this model covers,
so `useSelectedArray` is true and the list is cleared (`length = 0`) before
the walk over `getAllItems()`; the walk then rebuilds from the empty list,
which is why the incoming selection is not inspected.

When `except` is `undefined`, the non-range branch evaluates
`except[trackBy]`, a `TypeError`, as soon as the loop body runs once.
When `except` is an array of length other than two, `except[trackBy]` is
`undefined` and the comparison with the item's (defined) track-by value is
false for every item. -/
def deselectAllItemsExceptFull (selectedItemsList : List Item)
    (allItems : List Item) (except : ExceptArg) :
    Except String (List Item × ExceptArg) :=
  match except with
  | .arr xs =>
    if xs.length == 2 then
      match deselectRangeLoop allItems xs 0 [] with
      | .error e => .error e
      | .ok (sel, exc) => .ok (sel, .arr exc)
    else
      .ok (deselectPlainLoop (fun _ => false) allItems [], .arr xs)
  | .item e =>
    .ok (deselectPlainLoop (fun it => it.trackBy == e.trackBy) allItems [], .item e)
  | .undef =>
    match allItems with
    | [] => .ok ([], .undef)
    | _ :: _ => .error "TypeError: cannot read property of undefined"

/-- `deselectAllItemsExcept`, selection component only. -/
def deselectAllItemsExcept (selectedItemsList : List Item)
    (allItems : List Item) (except : ExceptArg) : Except String (List Item) :=
  match deselectAllItemsExceptFull selectedItemsList allItems except with
  | .error e => .error e
  | .ok (sel, _) => .ok sel

/-- The `selectItemsBetween` loop over `getAllVisibleItems()`.  The booleans
track whether the clicked item and the last (anchor) item have been seen;
`(foundLastItem + foundThisItem) === 1` is boolean exclusive-or. -/
def selectBetweenLoop (smItem lastItem : Item) :
    List Item → Bool → Bool → List Item → List Item
  | [], _, _, sel => sel
  | item :: rest, foundLast, foundThis, sel =>
    let foundThis := foundThis || item.trackBy == smItem.trackBy
    let foundLast := foundLast || item.trackBy == lastItem.trackBy
    let inRange := foundLast != foundThis
    let sel :=
      if inRange || item.trackBy == smItem.trackBy || item.trackBy == lastItem.trackBy then
        selectItem sel item
      else sel
    selectBetweenLoop smItem lastItem rest foundLast foundThis sel

/-- `selectItemsBetween(lastItem)`: `lastItem = lastItem || smItem` defaults
a missing anchor to the clicked item, then the loop walks the visible
collection. -/
def selectItemsBetween (sel : List Item) (visibleItems : List Item)
    (smItem : Item) (lastItem : Option Item) : List Item :=
  selectBetweenLoop smItem (lastItem.getD smItem) visibleItems false false sel

/-- Modelled from the spec: the `selectionStack` collaborator's `push`
records the item as the most recent explicit anchor for the group.  Only
the stack of the one group this directive instance uses is modelled. -/
def stackPush (stack : List Item) (item : Item) : List Item :=
  item :: stack

/-- Modelled from the spec: the `selectionStack` collaborator's `peek`
returns the most recently pushed item for the group, or `undefined`
(`none`) if nothing was ever pushed. -/
def stackPeek (stack : List Item) : Option Item :=
  stack.head?

/-- `/^multi(ple)?(-additive)?$/.test(smMode)` -/
def isMultiModeStr (s : String) : Bool :=
  s == "multi" || s == "multiple" || s == "multi-additive" || s == "multiple-additive"

/-- `/^multi(ple)?-additive/.test(smMode)` (anchored on the left only). -/
def isModeAdditiveStr (s : String) : Bool :=
  List.isPrefixOf "multi-additive".data s.data
    || List.isPrefixOf "multiple-additive".data s.data

/-- The per-instance configuration the click handler closes over. -/
structure SMConfig where
  smType : String := "basic"
  smMode : String := "single"
deriving DecidableEq, Repr

def SMConfig.isMultiMode (cfg : SMConfig) : Bool := isMultiModeStr cfg.smMode

def SMConfig.isModeAdditive (cfg : SMConfig) : Bool := isModeAdditiveStr cfg.smMode

/-- A click event.  `hasOriginalEvent`/`orig*` model `event.originalEvent`
and its two markers; the `target*` booleans abstract the DOM predicates the
handler evaluates on `event.target` (tag name, checkbox type, label `for`
attribute resolution against the row's child inputs, nested input). -/
structure JsEvent where
  ctrlKey : Bool := false
  metaKey : Bool := false
  shiftKey : Bool := false
  selectionModelIgnore : Bool := false
  selectionModelClickHandled : Bool := false
  hasOriginalEvent : Bool := false
  origIgnore : Bool := false
  origHandled : Bool := false
  targetIsCheckboxInput : Bool := false
  targetIsLabel : Bool := false
  labelHasFor : Bool := false
  labelForMatchesChildInput : Bool := false
  labelHasNestedInput : Bool := false
deriving DecidableEq, Repr

/-- The mutable state a directive instance touches: the shared
`selectedItemsList` and the group's click stack. -/
structure SMState where
  selectedItemsList : List Item
  clickStack : List Item
deriving DecidableEq, Repr

/-- `handleClick(event)`.  Returns the updated state together with the
event (the handler sets the `selectionModelClickHandled` markers on the
event and its `originalEvent`, which is how a second listener for the same
physical click is suppressed).  DOM updates (`updateDom`,
`updateSelectedAttributeValue`) and `scope.$apply` touch no modelled
state and are omitted. -/
def handleClick (cfg : SMConfig) (allItems visibleItems : List Item)
    (smItem : Item) (st : SMState) (event : JsEvent) :
    Except String (SMState × JsEvent) :=
  if event.selectionModelIgnore || (event.hasOriginalEvent && event.origIgnore) then
    .ok (st, event)
  else if event.selectionModelClickHandled
      || (event.hasOriginalEvent && event.origHandled) then
    .ok (st, event)
  else
    let event :=
      { event with
        selectionModelClickHandled := true
        origHandled := event.hasOriginalEvent || event.origHandled }
    let isCtrlKeyDown := event.ctrlKey || event.metaKey || cfg.isModeAdditive
    let isShiftKeyDown := event.shiftKey
    let isCheckboxClick := cfg.smType == "checkbox" && event.targetIsCheckboxInput
    -- label + checkbox guard: a label whose `for` resolves to a child input
    -- returns early, as does a label without `for` but with a nested input
    if event.targetIsLabel && event.labelHasFor && event.labelForMatchesChildInput then
      .ok (st, event)
    else if event.targetIsLabel && !event.labelHasFor && event.labelHasNestedInput then
      .ok (st, event)
    else if isShiftKeyDown && cfg.isMultiMode && !isCheckboxClick then
      match
        (if !isCtrlKeyDown then
          deselectAllItemsExcept st.selectedItemsList allItems
            (.arr [some smItem, stackPeek st.clickStack])
        else .ok st.selectedItemsList) with
      | .error e => .error e
      | .ok sel =>
        .ok ({ st with
                selectedItemsList :=
                  selectItemsBetween sel visibleItems smItem
                    (stackPeek st.clickStack) },
             event)
    else if isCtrlKeyDown || isShiftKeyDown || isCheckboxClick then
      let isSelectedResult := !isSelected st.selectedItemsList smItem
      match
        (if !cfg.isMultiMode then
          deselectAllItemsExcept st.selectedItemsList allItems (.item smItem)
        else .ok st.selectedItemsList) with
      | .error e => .error e
      | .ok sel =>
        if isSelectedResult then
          .ok ({ selectedItemsList := selectItem sel smItem
                 clickStack := stackPush st.clickStack smItem },
               event)
        else
          .ok ({ st with selectedItemsList := spliceOut sel smItem }, event)
    else
      match deselectAllItemsExcept st.selectedItemsList allItems (.item smItem) with
      | .error e => .error e
      | .ok sel =>
        .ok ({ selectedItemsList := selectItem sel smItem
               clickStack := stackPush st.clickStack smItem },
             event)

/-- The operations of the selection core, for stating properties of
arbitrary operation sequences.  `deselect` is the splice-removal pattern
the source uses inline; `click` runs the full handler on a fresh event. -/
inductive SMOp where
  | select (item : Item)
  | deselect (item : Item)
  | deselectAllExcept (except : ExceptArg)
  | selectBetween (lastItem : Option Item) (clicked : Item)
  | click (event : JsEvent) (smItem : Item)

/-- One operation applied to the state. -/
def runOp (cfg : SMConfig) (allItems visibleItems : List Item)
    (st : SMState) : SMOp → Except String SMState
  | .select item =>
    .ok { st with selectedItemsList := selectItem st.selectedItemsList item }
  | .deselect item =>
    .ok { st with selectedItemsList := spliceOut st.selectedItemsList item }
  | .deselectAllExcept e =>
    match deselectAllItemsExcept st.selectedItemsList allItems e with
    | .error err => .error err
    | .ok sel => .ok { st with selectedItemsList := sel }
  | .selectBetween lastItem clicked =>
    .ok { st with
          selectedItemsList :=
            selectItemsBetween st.selectedItemsList visibleItems clicked lastItem }
  | .click ev smItem =>
    match handleClick cfg allItems visibleItems smItem st ev with
    | .error err => .error err
    | .ok (st', _) => .ok st'

/-- A sequence of operations, stopping at the first thrown error. -/
def runOps (cfg : SMConfig) (allItems visibleItems : List Item) :
    SMState → List SMOp → Except String SMState
  | st, [] => .ok st
  | st, op :: rest =>
    match runOp cfg allItems visibleItems st op with
    | .error e => .error e
    | .ok st' => runOps cfg allItems visibleItems st' rest

/-- No two entries of the selection share a track-by value. -/
def DistinctTrackBy (l : List Item) : Prop :=
  l.Pairwise (fun a b => a.trackBy ≠ b.trackBy)

/-- The selection's track-by values, as a set. -/
def selTrackSet (st : SMState) : Finset Nat :=
  (st.selectedItemsList.map Item.trackBy).toFinset

/-! Concrete fixtures used by scenario claims and witnesses. -/

def mcfg : SMConfig := { smMode := "multi", smType := "basic" }

def i1 : Item := ⟨1, 0⟩
def i2 : Item := ⟨2, 0⟩
def i3 : Item := ⟨3, 0⟩
def i4 : Item := ⟨4, 0⟩

def coll4 : List Item := [i1, i2, i3, i4]

def st0 : SMState := ⟨[], []⟩

def evPlain : JsEvent := {}
def evShift : JsEvent := { shiftKey := true }
def evCtrl : JsEvent := { ctrlKey := true }

def i5 : Item := ⟨5, 0⟩

def coll5 : List Item := [i1, i2, i3, i4, i5]

/-! ### Basic lemmas about the track-by index -/

theorem indexOfTrackBy_eq_none_iff {l : List Item} {item : Item} :
    indexOfTrackBy l item = none ↔
      ∀ x ∈ l, (x.trackBy == item.trackBy) = false := by
  induction l with
  | nil => simp [indexOfTrackBy]
  | cons x rest ih =>
    unfold indexOfTrackBy
    cases hx : x.trackBy == item.trackBy with
    | true =>
      simp [hx, ih, Option.map_eq_none']
      intro h
      exact absurd (by simpa using hx) h
    | false =>
      simp [hx, ih, Option.map_eq_none']
      intro _
      simpa using hx

theorem indexOfTrackBy_append_self {sel : List Item} {item : Item}
    (h : indexOfTrackBy sel item = none) :
    indexOfTrackBy (sel ++ [item]) item = some sel.length := by
  induction sel with
  | nil => simp [indexOfTrackBy]
  | cons x rest ih =>
    unfold indexOfTrackBy at h ⊢
    cases hx : x.trackBy == item.trackBy with
    | true => simp [hx] at h
    | false =>
      simp only [hx, Bool.false_eq_true, if_false, Option.map_eq_none'] at h
      simp [hx, ih h]

theorem eraseIdx_append_self (l : List Item) (x : Item) :
    (l ++ [x]).eraseIdx l.length = l := by
  induction l with
  | nil => rfl
  | cons a rest ih => simpa [List.eraseIdx] using ih

theorem selectItem_of_none {sel : List Item} {item : Item}
    (h : indexOfTrackBy sel item = none) :
    selectItem sel item = sel ++ [item] := by
  simp [selectItem, h]

theorem spliceOut_append_self {sel : List Item} {item : Item}
    (h : indexOfTrackBy sel item = none) :
    spliceOut (sel ++ [item]) item = sel := by
  simp [spliceOut, indexOfTrackBy_append_self h, eraseIdx_append_self]

/-- C9: `select(item)` is idempotent: calling it twice in succession yields
the same selection sequence as calling it once; it appends only when no
entry with the same track-by value is present. -/
theorem claim_C9_select_idempotent (sel : List Item) (item : Item) :
    selectItem (selectItem sel item) item = selectItem sel item := by
  cases h : indexOfTrackBy sel item with
  | some ix => simp [selectItem, h]
  | none =>
    simp [selectItem, h, indexOfTrackBy_append_self h]

/-- C4: calling `deselectAllItemsExcept` with an `undefined` exception does
NOT complete: with a non-empty FullCollection the non-range branch
evaluates `except[trackBy]` on `undefined` and throws a `TypeError`
(contradicting the claim, the spec, and the source's own doc comment,
which promise a full clear). -/
theorem claim_C4_undefined_except_type_error :
    deselectAllItemsExcept [] [i1] ExceptArg.undef
      = Except.error "TypeError: cannot read property of undefined" := rfl

/-- C3: a shift-click in multi mode with an empty anchor stack does NOT
degrade to a single-item range: `deselectAllItemsExcept([smItem,
stack.peek])` receives an `undefined` second entry, and `indexOfTrackBy`
dereferences it (`array[i][trackByAttr]`) as soon as the walk reaches an
item that does not match the clicked item, throwing a `TypeError`.  Here:
FullCollection `[{trackBy:1},{trackBy:2}]`, clicked item `{trackBy:1}`,
empty stack. -/
theorem claim_C3_missing_anchor_type_error :
    handleClick mcfg [i1, i2] [i1, i2] i1 st0 evShift
      = Except.error "TypeError: cannot read property of undefined" := rfl

/-- C1: end-to-end multi-mode scenario over FullCollection
`[{id:1},{id:2},{id:3},{id:4}]`: plain click on 1, shift-click on 3,
ctrl-click on 4, plain click on 2 produce the successive track-by
selection sets `{1}`, `{1,2,3}`, `{1,2,3,4}`, `{2}`. -/
theorem claim_C1_end_to_end :
    (runOps mcfg coll4 coll4 st0
        [.click evPlain i1]).toOption.map selTrackSet = some {1} ∧
    (runOps mcfg coll4 coll4 st0
        [.click evPlain i1, .click evShift i3]).toOption.map selTrackSet
      = some {1, 2, 3} ∧
    (runOps mcfg coll4 coll4 st0
        [.click evPlain i1, .click evShift i3,
         .click evCtrl i4]).toOption.map selTrackSet = some {1, 2, 3, 4} ∧
    (runOps mcfg coll4 coll4 st0
        [.click evPlain i1, .click evShift i3, .click evCtrl i4,
         .click evPlain i2]).toOption.map selTrackSet = some {2} := by
  decide

/-- C6: with FullCollection = VisibleCollection = five items of track-by
values 1..5 and ANY starting selection, `deselectAllExcept([b,d])`
followed by the range selection between `b` and `d` yields exactly the
track-by set `{2,3,4}` (the inclusive range). -/
theorem claim_C6_range_inclusivity (sel₀ : List Item) :
    (deselectAllItemsExcept sel₀ coll5 (.arr [some i2, some i4])).toOption.map
        (fun s =>
          ((selectItemsBetween s coll5 i4 (some i2)).map Item.trackBy).toFinset)
      = some {2, 3, 4} := by
  have h : deselectAllItemsExcept sel₀ coll5 (.arr [some i2, some i4])
      = deselectAllItemsExcept [] coll5 (.arr [some i2, some i4]) := rfl
  rw [h]
  decide

/-! ### The ctrl-click toggle (C7) -/

def evCtrlHandled : JsEvent := { ctrlKey := true, selectionModelClickHandled := true }

/-- C7: in multi mode, a ctrl-click on an item that is not currently
selected appends it to the selection and pushes it onto the group's anchor
stack; a second ctrl-click (a fresh event) on the same item removes it
from the selection and leaves the anchor stack unchanged, so the stack's
top still references the now-deselected item. -/
theorem claim_C7_ctrl_toggle (allItems visibleItems sel stack : List Item)
    (item : Item) (h : isSelected sel item = false) :
    handleClick mcfg allItems visibleItems item ⟨sel, stack⟩ evCtrl
      = .ok (⟨sel ++ [item], item :: stack⟩, evCtrlHandled) ∧
    handleClick mcfg allItems visibleItems item ⟨sel ++ [item], item :: stack⟩ evCtrl
      = .ok (⟨sel, item :: stack⟩, evCtrlHandled) ∧
    stackPeek (item :: stack) = some item ∧
    isSelected sel item = false := by
  have hnone : indexOfTrackBy sel item = none := by
    cases ho : indexOfTrackBy sel item with
    | none => rfl
    | some ix => rw [isSelected, ho] at h; simp at h
  refine ⟨?_, ?_, rfl, h⟩
  · unfold handleClick
    simp [evCtrl, evCtrlHandled, mcfg, SMConfig.isMultiMode, SMConfig.isModeAdditive,
      isMultiModeStr, isModeAdditiveStr, h, selectItem_of_none hnone, stackPush]
  · have hfound : indexOfTrackBy (sel ++ [item]) item = some sel.length :=
      indexOfTrackBy_append_self hnone
    have hsel : isSelected (sel ++ [item]) item = true := by
      rw [isSelected, hfound]; rfl
    unfold handleClick
    simp [evCtrl, evCtrlHandled, mcfg, SMConfig.isMultiMode, SMConfig.isModeAdditive,
      isMultiModeStr, isModeAdditiveStr, hsel, spliceOut_append_self hnone]

/-- Closed instance of the ctrl toggle: toggling item 1 on and off over the
four-item collection, starting from an empty selection and stack. -/
theorem claim_C7_witness :
    handleClick mcfg coll4 coll4 i1 ⟨[], []⟩ evCtrl
      = .ok (⟨[i1], [i1]⟩, evCtrlHandled) ∧
    handleClick mcfg coll4 coll4 i1 ⟨[i1], [i1]⟩ evCtrl
      = .ok (⟨[], [i1]⟩, evCtrlHandled) ∧
    stackPeek [i1] = some i1 ∧
    isSelected [] i1 = false := by
  have h := claim_C7_ctrl_toggle coll4 coll4 [] [] i1 rfl
  simpa using h

/-! ### The duplicate-event guard (C8) -/

/-- The disjunction of the markers the handler consults before doing any
work: the ignore flags and the already-handled flags, on the event and on
its `originalEvent`. -/
def eventMarkerSet (event : JsEvent) : Bool :=
  event.selectionModelIgnore || (event.hasOriginalEvent && event.origIgnore)
    || event.selectionModelClickHandled
    || (event.hasOriginalEvent && event.origHandled)

theorem handleClick_marker_noop (cfg : SMConfig)
    (allItems visibleItems : List Item) (smItem : Item) (st : SMState)
    (event : JsEvent) (hmark : eventMarkerSet event = true) :
    handleClick cfg allItems visibleItems smItem st event = .ok (st, event) := by
  unfold handleClick
  by_cases h1 :
      (event.selectionModelIgnore || (event.hasOriginalEvent && event.origIgnore)) = true
  · rw [if_pos h1]
  · have h2 : (event.selectionModelClickHandled
        || (event.hasOriginalEvent && event.origHandled)) = true := by
      rw [eventMarkerSet] at hmark
      rcases Bool.or_eq_true_iff.mp hmark with h' | hd
      · rcases Bool.or_eq_true_iff.mp h' with hab | hc
        · exact absurd hab h1
        · simp [hc]
      · simp [hd]
    rw [if_neg h1, if_pos h2]

theorem handleClick_ok_marker {cfg : SMConfig}
    {allItems visibleItems : List Item} {smItem : Item} {st st' : SMState}
    {event event' : JsEvent}
    (h : handleClick cfg allItems visibleItems smItem st event = .ok (st', event')) :
    eventMarkerSet event' = true := by
  simp only [handleClick] at h
  split at h
  · rename_i hig
    simp only [Except.ok.injEq, Prod.mk.injEq] at h
    obtain ⟨-, hev⟩ := h
    subst hev
    simp [eventMarkerSet, hig]
  · split at h
    · rename_i hha
      simp only [Except.ok.injEq, Prod.mk.injEq] at h
      obtain ⟨-, hev⟩ := h
      subst hev
      rcases Bool.or_eq_true_iff.mp hha with hc | hd
      · simp [eventMarkerSet, hc]
      · simp [eventMarkerSet, hd]
    · -- the handler marks the event before anything else; every later
      -- successful branch returns that marked event
      repeat' split at h
      all_goals
        first
          | (simp only [Except.ok.injEq, Prod.mk.injEq] at h
             obtain ⟨-, hev⟩ := h
             subst hev
             simp [eventMarkerSet])
          | simp at h

/-- C8: (a) when an event's ignore flag or already-handled marker is set
(on the event or its `originalEvent`), the click handler returns with the
selection and the anchor stack completely unchanged; (b) consequently,
feeding the event object returned by a successful call back into the
handler — two click notifications for the same physical click — changes
the state exactly once: the second notification is a no-op. -/
theorem claim_C8_duplicate_guard (cfg : SMConfig)
    (allItems visibleItems : List Item) (smItem : Item) (st : SMState)
    (event : JsEvent) :
    (eventMarkerSet event = true →
      handleClick cfg allItems visibleItems smItem st event = .ok (st, event)) ∧
    (∀ (cfg' : SMConfig) (allItems' visibleItems' : List Item) (smItem' : Item)
        (st' : SMState) (event' : JsEvent),
      handleClick cfg allItems visibleItems smItem st event = .ok (st', event') →
      handleClick cfg' allItems' visibleItems' smItem' st' event' = .ok (st', event')) :=
  ⟨fun hmark => handleClick_marker_noop cfg allItems visibleItems smItem st event hmark,
   fun cfg' allItems' visibleItems' smItem' st' event' h =>
     handleClick_marker_noop cfg' allItems' visibleItems' smItem' st' event'
       (handleClick_ok_marker h)⟩

/-- Closed instance of the duplicate-event guard: an already-handled event
is a no-op, and re-dispatching the event returned by a real plain click is
a no-op. -/
theorem claim_C8_witness :
    handleClick mcfg coll4 coll4 i1 st0 { selectionModelClickHandled := true }
      = .ok (st0, { selectionModelClickHandled := true }) ∧
    handleClick mcfg coll4 coll4 i2 ⟨[i1], [i1]⟩ { selectionModelClickHandled := true }
      = .ok (⟨[i1], [i1]⟩, { selectionModelClickHandled := true }) :=
  ⟨(claim_C8_duplicate_guard mcfg coll4 coll4 i1 st0
      { selectionModelClickHandled := true }).1 rfl,
   (claim_C8_duplicate_guard mcfg coll4 coll4 i1 st0 evPlain).2 mcfg coll4 coll4 i2
      ⟨[i1], [i1]⟩ { selectionModelClickHandled := true } rfl⟩

/-! ### The uniqueness invariant (C5) -/

theorem distinct_selectItem {sel : List Item} (hd : DistinctTrackBy sel)
    (item : Item) : DistinctTrackBy (selectItem sel item) := by
  cases hix : indexOfTrackBy sel item with
  | some ix => simpa [selectItem, hix] using hd
  | none =>
    rw [selectItem_of_none hix, DistinctTrackBy, List.pairwise_append]
    refine ⟨hd, List.pairwise_singleton _ _, ?_⟩
    intro a ha b hb
    rw [List.mem_singleton] at hb
    subst hb
    intro heq
    have hne := indexOfTrackBy_eq_none_iff.mp hix a ha
    rw [heq] at hne
    simp at hne

theorem distinct_eraseIdx {sel : List Item} (hd : DistinctTrackBy sel)
    (ix : Nat) : DistinctTrackBy (sel.eraseIdx ix) :=
  List.Pairwise.sublist (List.eraseIdx_sublist sel ix) hd

theorem distinct_spliceOut {sel : List Item} (hd : DistinctTrackBy sel)
    (item : Item) : DistinctTrackBy (spliceOut sel item) := by
  cases hix : indexOfTrackBy sel item with
  | some ix => simpa [spliceOut, hix] using distinct_eraseIdx hd ix
  | none => simpa [spliceOut, hix] using hd

theorem distinct_deselectPlainLoop (doSel : Item → Bool) :
    ∀ (l : List Item) (sel : List Item), DistinctTrackBy sel →
      DistinctTrackBy (deselectPlainLoop doSel l sel) := by
  intro l
  induction l with
  | nil => intro sel hd; exact hd
  | cons item rest ih =>
    intro sel hd
    rw [deselectPlainLoop]
    cases hds : doSel item with
    | true => simpa [hds] using ih _ (distinct_selectItem hd item)
    | false => simpa [hds] using ih _ (distinct_spliceOut hd item)

theorem distinct_deselectRangeLoop :
    ∀ (l : List Item) (exc : List (Option Item)) (n : Nat)
      (sel sel' : List Item) (exc' : List (Option Item)),
      DistinctTrackBy sel →
      deselectRangeLoop l exc n sel = .ok (sel', exc') →
      DistinctTrackBy sel' := by
  intro l
  induction l with
  | nil =>
    intro exc n sel sel' exc' hd h
    simp only [deselectRangeLoop, Except.ok.injEq, Prod.mk.injEq] at h
    rw [← h.1]
    exact hd
  | cons item rest ih =>
    intro exc n sel sel' exc' hd h
    simp only [deselectRangeLoop] at h
    split at h
    · exact Except.noConfusion h
    · exact ih _ _ _ _ _ (distinct_selectItem hd item) h
    · split at h
      · exact ih _ _ _ _ _ (distinct_selectItem hd item) h
      · exact ih _ _ _ _ _ (distinct_spliceOut hd item) h

/-- Whatever the incoming selection, a successful `deselectAllItemsExcept`
returns a selection with pairwise-distinct track-by values: the list is
cleared first and rebuilt through `selectItem`. -/
theorem distinct_deselectAllItemsExceptFull {sel₀ allItems : List Item}
    {except : ExceptArg} {s : List Item} {e : ExceptArg}
    (h : deselectAllItemsExceptFull sel₀ allItems except = .ok (s, e)) :
    DistinctTrackBy s := by
  rw [deselectAllItemsExceptFull.eq_def] at h
  split at h
  · split at h
    · split at h
      · exact Except.noConfusion h
      · rename_i hloop
        rw [Except.ok.injEq, Prod.mk.injEq] at h
        rw [← h.1]
        exact distinct_deselectRangeLoop _ _ _ _ _ _ List.Pairwise.nil hloop
    · rw [Except.ok.injEq, Prod.mk.injEq] at h
      rw [← h.1]
      exact distinct_deselectPlainLoop _ _ _ List.Pairwise.nil
  · rw [Except.ok.injEq, Prod.mk.injEq] at h
    rw [← h.1]
    exact distinct_deselectPlainLoop _ _ _ List.Pairwise.nil
  · split at h
    · rw [Except.ok.injEq, Prod.mk.injEq] at h
      rw [← h.1]
      exact List.Pairwise.nil
    · exact Except.noConfusion h

theorem distinct_deselectAllItemsExcept {sel₀ allItems : List Item}
    {except : ExceptArg} {sel : List Item}
    (h : deselectAllItemsExcept sel₀ allItems except = .ok sel) :
    DistinctTrackBy sel := by
  rw [deselectAllItemsExcept] at h
  split at h
  · exact Except.noConfusion h
  · rename_i s e heq
    rw [Except.ok.injEq] at h
    subst h
    exact distinct_deselectAllItemsExceptFull heq

theorem distinct_selectBetweenLoop (smItem lastItem : Item) :
    ∀ (l : List Item) (foundLast foundThis : Bool) (sel : List Item),
      DistinctTrackBy sel →
      DistinctTrackBy (selectBetweenLoop smItem lastItem l foundLast foundThis sel) := by
  intro l
  induction l with
  | nil => intro fl ft sel hd; exact hd
  | cons item rest ih =>
    intro fl ft sel hd
    rw [selectBetweenLoop]
    split
    · exact ih _ _ _ (distinct_selectItem hd item)
    · exact ih _ _ _ hd

theorem distinct_selectItemsBetween {sel : List Item}
    (visibleItems : List Item) (smItem : Item) (lastItem : Option Item)
    (hd : DistinctTrackBy sel) :
    DistinctTrackBy (selectItemsBetween sel visibleItems smItem lastItem) :=
  distinct_selectBetweenLoop _ _ _ _ _ _ hd

theorem distinct_handleClick {cfg : SMConfig}
    {allItems visibleItems : List Item} {smItem : Item} {st st' : SMState}
    {event event' : JsEvent}
    (h : handleClick cfg allItems visibleItems smItem st event = .ok (st', event'))
    (hd : DistinctTrackBy st.selectedItemsList) :
    DistinctTrackBy st'.selectedItemsList := by
  simp only [handleClick] at h
  split at h
  · rw [Except.ok.injEq, Prod.mk.injEq] at h
    rw [← h.1]
    exact hd
  · split at h
    · rw [Except.ok.injEq, Prod.mk.injEq] at h
      rw [← h.1]
      exact hd
    · split at h
      · rw [Except.ok.injEq, Prod.mk.injEq] at h
        rw [← h.1]
        exact hd
      · split at h
        · rw [Except.ok.injEq, Prod.mk.injEq] at h
          rw [← h.1]
          exact hd
        · split at h
          · -- shift branch
            split at h
            · exact Except.noConfusion h
            · rename_i sel heq
              rw [Except.ok.injEq, Prod.mk.injEq] at h
              rw [← h.1]
              have hdsel : DistinctTrackBy sel := by
                split at heq
                · exact distinct_deselectAllItemsExcept heq
                · rw [Except.ok.injEq] at heq
                  rw [← heq]
                  exact hd
              exact distinct_selectItemsBetween _ _ _ hdsel
          · split at h
            · -- ctrl / shift toggle branch
              split at h
              · exact Except.noConfusion h
              · rename_i sel heq
                have hdsel : DistinctTrackBy sel := by
                  split at heq
                  · exact distinct_deselectAllItemsExcept heq
                  · rw [Except.ok.injEq] at heq
                    rw [← heq]
                    exact hd
                split at h
                · rw [Except.ok.injEq, Prod.mk.injEq] at h
                  rw [← h.1]
                  exact distinct_selectItem hdsel smItem
                · rw [Except.ok.injEq, Prod.mk.injEq] at h
                  rw [← h.1]
                  exact distinct_spliceOut hdsel smItem
            · -- plain click branch
              split at h
              · exact Except.noConfusion h
              · rename_i sel heq
                rw [Except.ok.injEq, Prod.mk.injEq] at h
                rw [← h.1]
                exact distinct_selectItem (distinct_deselectAllItemsExcept heq) smItem

theorem distinct_runOp {cfg : SMConfig} {allItems visibleItems : List Item}
    {st st' : SMState} {op : SMOp}
    (h : runOp cfg allItems visibleItems st op = .ok st')
    (hd : DistinctTrackBy st.selectedItemsList) :
    DistinctTrackBy st'.selectedItemsList := by
  cases op with
  | select item =>
    rw [runOp, Except.ok.injEq] at h
    rw [← h]
    exact distinct_selectItem hd item
  | deselect item =>
    rw [runOp, Except.ok.injEq] at h
    rw [← h]
    exact distinct_spliceOut hd item
  | deselectAllExcept e =>
    rw [runOp] at h
    split at h
    · exact Except.noConfusion h
    · rename_i sel heq
      rw [Except.ok.injEq] at h
      rw [← h]
      exact distinct_deselectAllItemsExcept heq
  | selectBetween lastItem clicked =>
    rw [runOp, Except.ok.injEq] at h
    rw [← h]
    exact distinct_selectItemsBetween _ _ _ hd
  | click ev smItem =>
    rw [runOp] at h
    split at h
    · exact Except.noConfusion h
    · rename_i p heq
      rw [Except.ok.injEq] at h
      rw [← h]
      exact distinct_handleClick heq hd

/-- C5: starting from a selection with pairwise-distinct track-by values,
any sequence of select, deselect, deselectAllExcept, selectBetween and
click operations that completes leaves a selection in which no two entries
share a track-by value. -/
theorem claim_C5_distinct_invariant (cfg : SMConfig)
    (allItems visibleItems : List Item) (ops : List SMOp)
    (st st' : SMState)
    (hd : DistinctTrackBy st.selectedItemsList)
    (h : runOps cfg allItems visibleItems st ops = .ok st') :
    DistinctTrackBy st'.selectedItemsList := by
  induction ops generalizing st with
  | nil =>
    rw [runOps, Except.ok.injEq] at h
    rw [← h]
    exact hd
  | cons op rest ih =>
    rw [runOps] at h
    split at h
    · exact Except.noConfusion h
    · rename_i stm heq
      exact ih stm (distinct_runOp heq hd) h

/-- Closed instance of the uniqueness invariant: a mixed sequence of
clicks and direct operations, starting from an empty selection, ends in
the state `⟨[i2, i4], [i4, i1]⟩`, whose selection has distinct track-by
values. -/
theorem claim_C5_witness :
    DistinctTrackBy (SMState.mk [i2, i4] [i4, i1]).selectedItemsList :=
  claim_C5_distinct_invariant mcfg coll4 coll4
    [.click evPlain i1, .select i3, .select i3, .click evShift i4,
     .deselect i2, .selectBetween (some i1) i3,
     .deselectAllExcept (.item i2), .click evCtrl i4]
    st0 (SMState.mk [i2, i4] [i4, i1]) List.Pairwise.nil rfl

/-! ### The single-matched-endpoint fallback (C2) -/

theorem occursTrackBy_cons {x item : Item} {rest : List Item} :
    occursTrackBy x (item :: rest)
      = ((item.trackBy == x.trackBy) || occursTrackBy x rest) := by
  simp [occursTrackBy]

/-- Once one endpoint has been found (`numItemsFound = 1`) and the single
remaining `except` entry never matches, every later item of the walk gets
`doSelect = true` and is selected. -/
theorem deselectRangeLoop_single_absent {C : Item} :
    ∀ (l : List Item) (sel : List Item),
      occursTrackBy C l = false →
      deselectRangeLoop l [some C] 1 sel
        = .ok (l.foldl selectItem sel, [some C]) := by
  intro l
  induction l with
  | nil => intro sel _; rfl
  | cons item rest ih =>
    intro sel h
    rw [occursTrackBy, List.any_cons, Bool.or_eq_false_iff] at h
    obtain ⟨h1, h2⟩ := h
    have h1' : (C.trackBy == item.trackBy) = false := by
      rw [beq_eq_false_iff_ne] at h1 ⊢
      exact Ne.symm h1
    have hstep : deselectRangeLoop (item :: rest) [some C] 1 sel
        = deselectRangeLoop rest [some C] 1 (selectItem sel item) := by
      simp [deselectRangeLoop, indexOfTrackByErr, h1', Except.map]
    rw [hstep, List.foldl_cons]
    exact ih _ h2

/-- When exactly one of the two endpoints occurs (by track-by) in the
walked collection, the range walk selects everything from the first
matching item to the end of the collection (not just the matched item):
before the first match `doSelect` is false, and after it
`numItemsFound` stays `1`, so every later item is selected. -/
theorem deselectRangeLoop_one_endpoint :
    ∀ (l : List Item) (A B : Item),
      occursTrackBy A l ≠ occursTrackBy B l →
      ∃ exc', deselectRangeLoop l [some A, some B] 0 []
        = .ok ((l.dropWhile
            (fun i => !(i.trackBy == A.trackBy || i.trackBy == B.trackBy))).foldl
              selectItem [], exc') := by
  intro l
  induction l with
  | nil => intro A B hx; exact absurd rfl hx
  | cons item rest ih =>
    intro A B hx
    cases hA : (item.trackBy == A.trackBy) with
    | true =>
      -- the head matches endpoint A: splice A out, enter the selected phase
      have hoccA : occursTrackBy A (item :: rest) = true := by
        rw [occursTrackBy_cons, hA]
        rfl
      have hoccB : occursTrackBy B (item :: rest) = false := by
        cases hOB : occursTrackBy B (item :: rest) with
        | false => rfl
        | true => rw [hoccA, hOB] at hx; exact absurd rfl hx
      rw [occursTrackBy_cons, Bool.or_eq_false_iff] at hoccB
      have hAsym : (A.trackBy == item.trackBy) = true := by
        rw [beq_iff_eq] at hA ⊢
        exact hA.symm
      refine ⟨[some B], ?_⟩
      have hstep : deselectRangeLoop (item :: rest) [some A, some B] 0 []
          = deselectRangeLoop rest [some B] 1 [item] := by
        simp [deselectRangeLoop, indexOfTrackByErr, hAsym, selectItem, indexOfTrackBy]
      rw [hstep, deselectRangeLoop_single_absent rest [item] hoccB.2,
        List.dropWhile_cons]
      simp [hA, selectItem, indexOfTrackBy]
    | false =>
      cases hB : (item.trackBy == B.trackBy) with
      | true =>
        -- the head matches endpoint B: splice B out (index 1)
        have hoccB : occursTrackBy B (item :: rest) = true := by
          rw [occursTrackBy_cons, hB]
          rfl
        have hoccA : occursTrackBy A (item :: rest) = false := by
          cases hOA : occursTrackBy A (item :: rest) with
          | false => rfl
          | true => rw [hoccB, hOA] at hx; exact absurd rfl hx
        rw [occursTrackBy_cons, Bool.or_eq_false_iff] at hoccA
        have hAsym : (A.trackBy == item.trackBy) = false := by
          rw [beq_eq_false_iff_ne] at hA ⊢
          exact Ne.symm hA
        have hBsym : (B.trackBy == item.trackBy) = true := by
          rw [beq_iff_eq] at hB ⊢
          exact hB.symm
        refine ⟨[some A], ?_⟩
        have hstep : deselectRangeLoop (item :: rest) [some A, some B] 0 []
            = deselectRangeLoop rest [some A] 1 [item] := by
          simp [deselectRangeLoop, indexOfTrackByErr, hAsym, hBsym, Except.map,
            selectItem, indexOfTrackBy]
        rw [hstep, deselectRangeLoop_single_absent rest [item] hoccA.2,
          List.dropWhile_cons]
        simp [hB, selectItem, indexOfTrackBy]
      | false =>
        -- the head matches neither endpoint: doSelect stays false
        have hAsym : (A.trackBy == item.trackBy) = false := by
          rw [beq_eq_false_iff_ne] at hA ⊢
          exact Ne.symm hA
        have hBsym : (B.trackBy == item.trackBy) = false := by
          rw [beq_eq_false_iff_ne] at hB ⊢
          exact Ne.symm hB
        have hx' : occursTrackBy A rest ≠ occursTrackBy B rest := by
          rw [occursTrackBy_cons, occursTrackBy_cons, hA, hB] at hx
          simpa using hx
        obtain ⟨exc', hrec⟩ := ih A B hx'
        refine ⟨exc', ?_⟩
        have hstep : deselectRangeLoop (item :: rest) [some A, some B] 0 []
            = deselectRangeLoop rest [some A, some B] 0 [] := by
          simp [deselectRangeLoop, indexOfTrackByErr, hAsym, hBsym, Except.map,
            spliceOut, indexOfTrackBy]
        rw [hstep, hrec, List.dropWhile_cons]
        simp [hA, hB]

/-- C2 counterexample: FullCollection `[{trackBy:1},{trackBy:2}]`, exception
pair `[{trackBy:1},{trackBy:9}]`; only the first endpoint occurs, yet the
resulting selection is the whole suffix `[{1},{2}]`, not the single matched
item `{1}`. -/
theorem claim_C2_counterexample :
    (deselectAllItemsExcept [] [i1, i2]
        (.arr [some i1, some ⟨9, 0⟩])).toOption = some [i1, i2] ∧
    (([i1, i2].map Item.trackBy).toFinset : Finset Nat) ≠ ({1} : Finset Nat) := by
  decide

/-- C2 (amended): if exactly one of the two endpoints occurs (by track-by)
in FullCollection, `deselectAllItemsExcept([A,B])` selects the items of
FullCollection from the first occurrence of the matched endpoint through
the end of the collection (deduplicated via `selectItem`), not just the
single matched item. -/
theorem claim_C2_amended_suffix_selected (allItems : List Item) (A B : Item)
    (sel₀ : List Item)
    (hx : occursTrackBy A allItems ≠ occursTrackBy B allItems) :
    deselectAllItemsExcept sel₀ allItems (.arr [some A, some B])
      = .ok ((allItems.dropWhile
          (fun i => !(i.trackBy == A.trackBy || i.trackBy == B.trackBy))).foldl
            selectItem []) := by
  obtain ⟨exc', hloop⟩ := deselectRangeLoop_one_endpoint allItems A B hx
  simp [deselectAllItemsExcept, deselectAllItemsExceptFull, hloop]

/-- Closed instance of the amended C2: endpoint `{trackBy:1}` occurs in
`[{1},{2}]`, endpoint `{trackBy:9}` does not; the call selects the suffix
from the match on, i.e. both items. -/
theorem claim_C2_witness :
    occursTrackBy i1 [i1, i2] ≠ occursTrackBy (⟨9, 0⟩ : Item) [i1, i2] ∧
    deselectAllItemsExcept [] [i1, i2] (.arr [some i1, some ⟨9, 0⟩])
      = .ok [i1, i2] := by
  constructor
  · decide
  · rw [claim_C2_amended_suffix_selected [i1, i2] i1 ⟨9, 0⟩ [] (by decide)]
    rfl

/-! ### In-place mutation of the exception pair (C10) -/

/-- One step of the `except.splice(ixItem, 1)` evolution: the walked item
removes the first `except` entry with its track-by value, if any.  (On an
array whose entries are all defined, `indexOfTrackByErr` never throws, so
the wildcard branch covers only the no-match result.) -/
def excStep (exc : List (Option Item)) (item : Item) : List (Option Item) :=
  match indexOfTrackByErr exc item with
  | .ok (some ix) => exc.eraseIdx ix
  | _ => exc

theorem deselectRangeLoop_exc :
    ∀ (l : List Item) (exc : List (Option Item)) (n : Nat)
      (sel sel' : List Item) (exc' : List (Option Item)),
      deselectRangeLoop l exc n sel = .ok (sel', exc') →
      exc' = l.foldl excStep exc := by
  intro l
  induction l with
  | nil =>
    intro exc n sel sel' exc' h
    simp only [deselectRangeLoop, Except.ok.injEq, Prod.mk.injEq] at h
    rw [← h.2]
    rfl
  | cons item rest ih =>
    intro exc n sel sel' exc' h
    rw [List.foldl_cons]
    simp only [deselectRangeLoop] at h
    split at h
    · exact Except.noConfusion h
    · rename_i ix hix
      rw [show excStep exc item = exc.eraseIdx ix from by rw [excStep, hix]]
      exact ih _ _ _ _ _ h
    · rename_i hix
      rw [show excStep exc item = exc from by rw [excStep, hix]]
      split at h
      · exact ih _ _ _ _ _ h
      · exact ih _ _ _ _ _ h

theorem indexOfTrackByErr_all_some (item : Item) :
    ∀ (exc : List (Option Item)), (∀ o ∈ exc, o.isSome = true) →
      ∃ r, indexOfTrackByErr exc item = .ok r := by
  intro exc
  induction exc with
  | nil => intro _; exact ⟨none, rfl⟩
  | cons o rest ih =>
    intro hall
    cases o with
    | none => exact absurd (hall none (List.mem_cons_self none rest)) (by simp)
    | some x =>
      rw [indexOfTrackByErr]
      cases hx : x.trackBy == item.trackBy with
      | true => exact ⟨some 0, by simp⟩
      | false =>
        obtain ⟨r, hr⟩ := ih (fun o ho => hall o (List.mem_cons_of_mem _ ho))
        exact ⟨r.map (· + 1), by rw [if_neg (by simp), hr]; rfl⟩

theorem deselectRangeLoop_total :
    ∀ (l : List Item) (exc : List (Option Item)) (n : Nat) (sel : List Item),
      (∀ o ∈ exc, o.isSome = true) →
      ∃ p, deselectRangeLoop l exc n sel = .ok p := by
  intro l
  induction l with
  | nil => intro exc n sel _; exact ⟨(sel, exc), rfl⟩
  | cons item rest ih =>
    intro exc n sel hall
    obtain ⟨r, hr⟩ := indexOfTrackByErr_all_some item exc hall
    rw [deselectRangeLoop, hr]
    cases r with
    | some ix =>
      exact ih (exc.eraseIdx ix) (n + 1) (selectItem sel item)
        (fun o ho =>
          hall o (List.Sublist.mem ho (List.eraseIdx_sublist exc ix)))
    | none =>
      cases hn : n == 1 with
      | true => exact ih exc n (selectItem sel item) hall
      | false => exact ih exc n (spliceOut sel item) hall

theorem foldl_excStep_nil : ∀ (l : List Item), l.foldl excStep [] = [] := by
  intro l
  induction l with
  | nil => rfl
  | cons item rest ih => simpa [excStep, indexOfTrackByErr] using ih

theorem foldl_excStep_single (C : Item) :
    ∀ (l : List Item), l.foldl excStep [some C]
      = if occursTrackBy C l then [] else [some C] := by
  intro l
  induction l with
  | nil => rfl
  | cons item rest ih =>
    rw [List.foldl_cons]
    cases hC : (item.trackBy == C.trackBy) with
    | true =>
      have hCsym : (C.trackBy == item.trackBy) = true := by
        rw [beq_iff_eq] at hC ⊢
        exact hC.symm
      have hstep : excStep [some C] item = [] := by
        simp [excStep, indexOfTrackByErr, hCsym]
      rw [hstep, foldl_excStep_nil, occursTrackBy_cons, hC]
      rfl
    | false =>
      have hCsym : (C.trackBy == item.trackBy) = false := by
        rw [beq_eq_false_iff_ne] at hC ⊢
        exact Ne.symm hC
      have hstep : excStep [some C] item = [some C] := by
        simp [excStep, indexOfTrackByErr, hCsym, Except.map]
      rw [hstep, ih, occursTrackBy_cons, hC]
      rfl

theorem foldl_excStep_pair (A B : Item) (hAB : A.trackBy ≠ B.trackBy) :
    ∀ (l : List Item), l.foldl excStep [some A, some B]
      = (if occursTrackBy A l then [] else [some A])
          ++ (if occursTrackBy B l then [] else [some B]) := by
  intro l
  induction l with
  | nil => rfl
  | cons item rest ih =>
    rw [List.foldl_cons]
    cases hA : (item.trackBy == A.trackBy) with
    | true =>
      have hAsym : (A.trackBy == item.trackBy) = true := by
        rw [beq_iff_eq] at hA ⊢
        exact hA.symm
      have hB : (item.trackBy == B.trackBy) = false := by
        rw [beq_eq_false_iff_ne]
        rw [beq_iff_eq] at hA
        rw [hA]
        exact hAB
      have hstep : excStep [some A, some B] item = [some B] := by
        simp [excStep, indexOfTrackByErr, hAsym]
      rw [hstep, foldl_excStep_single, occursTrackBy_cons, occursTrackBy_cons,
        hA, hB]
      simp
    | false =>
      have hAsym : (A.trackBy == item.trackBy) = false := by
        rw [beq_eq_false_iff_ne] at hA ⊢
        exact Ne.symm hA
      cases hB : (item.trackBy == B.trackBy) with
      | true =>
        have hBsym : (B.trackBy == item.trackBy) = true := by
          rw [beq_iff_eq] at hB ⊢
          exact hB.symm
        have hstep : excStep [some A, some B] item = [some A] := by
          simp [excStep, indexOfTrackByErr, hAsym, hBsym, Except.map]
        rw [hstep, foldl_excStep_single, occursTrackBy_cons, occursTrackBy_cons,
          hA, hB]
        simp
      | false =>
        have hBsym : (B.trackBy == item.trackBy) = false := by
          rw [beq_eq_false_iff_ne] at hB ⊢
          exact Ne.symm hB
        have hstep : excStep [some A, some B] item = [some A, some B] := by
          simp [excStep, indexOfTrackByErr, hAsym, hBsym, Except.map]
        rw [hstep, ih, occursTrackBy_cons, occursTrackBy_cons, hA, hB]
        rfl

/-- C10 counterexample: both endpoints of the pair occur (by track-by) in
FullCollection `[{trackBy:1}]`, yet after the call the pair array is not
empty: the single matching item splices out only the FIRST pair entry with
its track-by value, and the second endpoint survives. -/
theorem claim_C10_counterexample :
    (deselectAllItemsExceptFull [] [⟨1, 5⟩]
        (.arr [some ⟨1, 0⟩, some ⟨1, 1⟩])).toOption.map Prod.snd
      = some (ExceptArg.arr [some ⟨1, 1⟩]) ∧
    occursTrackBy ⟨1, 0⟩ [⟨1, 5⟩] = true ∧
    occursTrackBy ⟨1, 1⟩ [⟨1, 5⟩] = true ∧
    ExceptArg.arr [some ⟨1, 1⟩] ≠ ExceptArg.arr [] := by
  decide

/-- C10 (amended): for a two-element exception pair whose endpoints have
DISTINCT track-by values, the call mutates the caller's array so that
after it the pair retains exactly the endpoints whose track-by value never
occurs in FullCollection — in particular it is empty when both occur.
(When the endpoints share a track-by value that occurs only once, one
endpoint survives, which is what the counterexample exhibits.) -/
theorem claim_C10_amended_pair_mutation (allItems : List Item) (A B : Item)
    (sel₀ : List Item) (hAB : A.trackBy ≠ B.trackBy) :
    ∃ s, deselectAllItemsExceptFull sel₀ allItems (.arr [some A, some B])
      = .ok (s, .arr ((if occursTrackBy A allItems then [] else [some A])
          ++ (if occursTrackBy B allItems then [] else [some B]))) := by
  obtain ⟨⟨s, exc'⟩, hloop⟩ :=
    deselectRangeLoop_total allItems [some A, some B] 0 []
      (by intro o ho
          rcases List.mem_cons.mp ho with h | ho2
          · rw [h]; rfl
          · rcases List.mem_cons.mp ho2 with h | h
            · rw [h]; rfl
            · exact absurd h (List.not_mem_nil o))
  have hexc : exc' = allItems.foldl excStep [some A, some B] :=
    deselectRangeLoop_exc _ _ _ _ _ _ hloop
  rw [foldl_excStep_pair A B hAB] at hexc
  refine ⟨s, ?_⟩
  simp [deselectAllItemsExceptFull, hloop, hexc]

/-- Closed instance of the amended C10: endpoints `{trackBy:2}` (occurs)
and `{trackBy:9}` (does not occur) over `[{1},{2},{3}]`: the spliced pair
ends as `[{9}]`. -/
theorem claim_C10_witness :
    ∃ s, deselectAllItemsExceptFull [] [i1, i2, i3]
        (.arr [some i2, some ⟨9, 0⟩])
      = .ok (s, .arr [some ⟨9, 0⟩]) := by
  obtain ⟨s, hs⟩ :=
    claim_C10_amended_pair_mutation [i1, i2, i3] i2 ⟨9, 0⟩ [] (by decide)
  exact ⟨s, by rw [hs]; rfl⟩

end SelectionModel
